import Mathlib

/-!
Verification development for the clog transcript-harvesting pipeline.

The development shallowly embeds the core of the repository:

* `Harvest`, `extractText`, `parseTimestamp` — the transcript harvester
  (package `transcript`): reads a JSONL file from a byte offset, scans it
  line by line, filters records to user/assistant message payloads and
  converts them to messages.
* `SaveHarvestedMessages`, `GetOffset` — the DuckDB-backed store (package
  `store`): a single transaction inserting harvested messages with
  "insert, ignore on uuid conflict" semantics and upserting the per-file
  byte offset.
* `harvestMessages` — the orchestrator in `main.go` gluing the two.

Modelling conventions:

* A file is a `List Nat` of bytes (`none` when the file cannot be opened).
* Go's `bufio.Scanner` with `ScanLines` is modelled by `splitSegs`
  (raw segments between newline bytes, the final unterminated segment
  included) followed by `dropCR` (strip one trailing carriage return),
  matching `bufio.ScanLines`.  A segment of at least the 10 MiB buffer
  cap makes the scan fail with `bufio.ErrTooLong`: a terminated segment
  of exactly the cap needs its newline to fit in the already-full buffer,
  and for a final unterminated segment of exactly the cap the buffer-full
  check fires before the read that would register EOF — so the largest
  line the scanner delivers holds `maxLineSize - 1` content bytes.
* The standard-library JSON decoder and RFC3339 time parser are external
  collaborators; they enter as function parameters `decode` (bytes to an
  optional `TranscriptLine`, `none` when `json.Unmarshal` fails) and
  `parse` (string to an optional abstract instant, `none` when
  `time.Parse` fails).  The polymorphic `content` field is embedded as
  `RawContent`, the tag recording which decoding `encoding/json` accepts
  for it; each constructor carries the verbatim raw text.
* Instants are `Int`; the database is a `DBState` of message rows and an
  offset table; a SQL transaction is a pending state published only at
  commit, with a `failStep` oracle marking which statement (if any) the
  database layer fails at.
-/

namespace Clog

/-- Decoded form of one element of an assistant content-block array:
the Go target `struct { Type string; Text string }` of `extractText`. -/
structure BlockObj where
  type : String
  text : String
deriving DecidableEq

/-- Outcome of `encoding/json` decoding attempts on a message `content`
field, as inspected by `extractText`: the field is absent (`nil`/empty raw
bytes), a JSON string, a JSON array whose elements each decode to a
`BlockObj` or fail (`none`), or raw bytes that are neither.  Each
constructor keeps the verbatim raw text, mirroring `json.RawMessage`. -/
inductive RawContent where
  | absent : RawContent
  | jstr (raw : String) (s : String) : RawContent
  | jarr (raw : String) (blocks : List (Option BlockObj)) : RawContent
  | other (raw : String) : RawContent
deriving DecidableEq

/-- Verbatim raw bytes of the content field, as Go's `string(raw)`. -/
def RawContent.rawStr : RawContent → String
  | .absent => ""
  | .jstr raw _ => raw
  | .jarr raw _ => raw
  | .other raw => raw

/-- Go struct `messagePayload`: role, polymorphic content, model. -/
structure MessagePayload where
  role : String
  content : RawContent
  model : String
deriving DecidableEq

/-- Go struct `transcriptLine`: the decoded shape of one JSONL line. -/
structure TranscriptLine where
  type : String
  uuid : String
  parent : String
  message : Option MessagePayload
  timestamp : String
deriving DecidableEq

/-- Go struct `model.Message`: one harvested conversational turn. -/
structure Message where
  sessionID : String
  uuid : String
  parentUUID : String
  role : String
  content : String
  rawContent : String
  model : String
  timestamp : Int
deriving DecidableEq

/-- Go struct `model.HarvestResult`. -/
structure HarvestResult where
  messages : List Message
  newOffset : Int
deriving DecidableEq

/-- Embedding of `extractText` (transcript package): pull display text out
of a content field.  The fold over blocks mirrors the Go loop that appends
to `parts` and finally joins with a newline. -/
def extractText : RawContent → String
  | .absent => ""
  | .jstr _ s => s
  | .jarr _ blocks =>
      let parts := blocks.foldl
        (fun acc ob =>
          match ob with
          | none => acc
          | some obj =>
              if obj.type = "text" ∧ obj.text ≠ "" then acc ++ [obj.text] else acc)
        []
      String.intercalate "\n" parts
  | .other raw => raw

/-- Spec-side description of the array case of `extractText`, written from
the spec's words: filter to blocks whose type tag is "text" and whose text
is non-empty, and join their text values with a single newline separator,
preserving original order. -/
def textBlocksJoined (blocks : List (Option BlockObj)) : String :=
  String.intercalate "\n"
    (blocks.filterMap (fun ob =>
      ob.bind (fun b => if b.type = "text" ∧ b.text ≠ "" then some b.text else none)))

/-- Embedding of `parseTimestamp` (transcript package); `parse` is the
abstract `time.Parse time.RFC3339Nano` collaborator. -/
def parseTimestamp (parse : String → Option Int) (raw : String) (fallback : Int) : Int :=
  if raw = "" then fallback
  else
    match parse raw with
    | some t => t
    | none => fallback

/-- Scanner buffer cap: `scanner.Buffer(make([]byte, 0, 1024*1024), 10*1024*1024)`.
The scanner errors with `ErrTooLong` as soon as a full `maxLineSize`-byte
buffer holds no complete token, so a segment of exactly this many content
bytes already fails (its terminating newline cannot fit, and for an
unterminated final segment the buffer-full check precedes EOF detection):
the longest deliverable line is `maxLineSize - 1` bytes. -/
def maxLineSize : Nat := 10 * 1024 * 1024

/-- Strip one trailing carriage return, as `dropCR` inside `bufio.ScanLines`. -/
def dropCR (l : List Nat) : List Nat :=
  match l.getLast? with
  | some 13 => l.dropLast
  | _ => l

/-- Accumulating splitter for `splitSegs`; `cur` is the current segment in
reverse byte order. -/
def splitSegsAux : List Nat → List Nat → List (List Nat)
  | [], cur => if cur = [] then [] else [cur.reverse]
  | b :: bs, cur => if b = 10 then cur.reverse :: splitSegsAux bs [] else splitSegsAux bs (b :: cur)

/-- Raw segments of a byte stream between newline (10) bytes, the final
unterminated segment included when non-empty: the token stream produced by
`bufio.Scanner` with `ScanLines` before carriage-return stripping. -/
def splitSegs (bs : List Nat) : List (List Nat) :=
  splitSegsAux bs []

/-- Byte position the harvester starts reading from: `f.Seek(fromOffset,
io.SeekStart)` is only issued when `fromOffset > 0`. -/
def seekStart (fromOffset : Int) : Nat :=
  if fromOffset > 0 then fromOffset.toNat else 0

/-- Tokens the harvester's scan loop sees for `bytes` from offset `off`:
raw segments with the trailing carriage return stripped. -/
def scanTokens (bytes : List Nat) (off : Int) : List (List Nat) :=
  (splitSegs (bytes.drop (seekStart off))).map dropCR

/-- Body of the harvester's scan loop for one token: skip empty lines,
skip lines `json.Unmarshal` rejects, skip records without a `message`
payload, skip roles other than user/assistant, and otherwise build a
`Message` exactly as the Go loop does. -/
def harvestToken (decode : List Nat → Option TranscriptLine) (parse : String → Option Int)
    (now : Int) (sessionID : String) (t : List Nat) : Option Message :=
  if t.length = 0 then none
  else
    match decode t with
    | none => none
    | some tl =>
        match tl.message with
        | none => none
        | some mp =>
            if mp.role = "user" ∨ mp.role = "assistant" then
              some { sessionID := sessionID
                     uuid := tl.uuid
                     parentUUID := tl.parent
                     role := mp.role
                     content := extractText mp.content
                     rawContent := mp.content.rawStr
                     model := mp.model
                     timestamp := parseTimestamp parse tl.timestamp now }
            else none

/-- Embedding of `Harvest` (transcript package).  `decode` and `parse` are
the standard-library collaborators, `now` the single `time.Now().UTC()`
instant captured before the scan loop, `file` the byte content of the
transcript (`none` when `os.Open` fails), `fromOffset` the caller's byte
offset.  The new offset is the file cursor after the buffered scan read
everything reachable, i.e. the end of the file (or the seek target when it
lies beyond the end). -/
def Harvest (decode : List Nat → Option TranscriptLine) (parse : String → Option Int)
    (now : Int) (sessionID : String) (file : Option (List Nat)) (fromOffset : Int) :
    Except String HarvestResult :=
  match file with
  | none => Except.error "open transcript"
  | some bytes =>
      if (splitSegs (bytes.drop (seekStart fromOffset))).any
          (fun s => decide (maxLineSize ≤ s.length)) then
        Except.error "scan transcript"
      else
        Except.ok
          { messages := (scanTokens bytes fromOffset).filterMap
              (harvestToken decode parse now sessionID)
            newOffset := ((seekStart fromOffset + (bytes.drop (seekStart fromOffset)).length : Nat) : Int) }

/-! ## Store layer -/

/-- One row of the `messages` table (schema `coreSchema`): nullable
columns are `Option`-valued; `uuid` carries the `UNIQUE` constraint. -/
structure MsgRow where
  sessionID : String
  uuid : Option String
  parentUUID : Option String
  role : String
  content : Option String
  rawContent : Option String
  model : Option String
  timestamp : Int
deriving DecidableEq

/-- Durable database state: the `messages` table rows in insertion order
and the `transcript_offsets` table as an association list keyed by the
`transcript_path` primary key. -/
structure DBState where
  messages : List MsgRow
  offsets : List (String × Int)
deriving DecidableEq

/-- Embedding of the store helper `nullStr`: an empty string is bound as
SQL NULL. -/
def nullStr (s : String) : Option String :=
  if s = "" then none else some s

/-- Row bound by `SaveHarvestedMessages`' prepared INSERT for one message:
`uuid`, `parent_uuid`, `content`, `raw_content` and `model` pass through
`nullStr`. -/
def toRow (m : Message) : MsgRow :=
  { sessionID := m.sessionID
    uuid := nullStr m.uuid
    parentUUID := nullStr m.parentUUID
    role := m.role
    content := nullStr m.content
    rawContent := nullStr m.rawContent
    model := nullStr m.model
    timestamp := m.timestamp }

/-- Whether some row already holds the (non-NULL) uuid `u`: the condition
under which the `UNIQUE(uuid)` constraint makes the insert conflict. -/
def existsUuid : List MsgRow → String → Bool
  | [], _ => false
  | r :: rest, u => if r.uuid = some u then true else existsUuid rest u

/-- Effect of one `INSERT INTO messages ... ON CONFLICT (uuid) DO NOTHING`:
a row with a non-NULL uuid already present is silently dropped; a NULL
uuid never conflicts (SQL UNIQUE treats NULLs as distinct), so the row is
always appended. -/
def insertMessage (st : DBState) (m : Message) : DBState :=
  let row := toRow m
  match row.uuid with
  | some u =>
      if existsUuid st.messages u then st
      else { st with messages := st.messages ++ [row] }
  | none => { st with messages := st.messages ++ [row] }

/-- Whether the offsets table has a row for `q`. -/
def hasPath : List (String × Int) → String → Bool
  | [], _ => false
  | p :: rest, q => if p.1 = q then true else hasPath rest q

/-- Overwrite the offset of every row keyed `q` (the primary key makes it
at most one in reachable states). -/
def replacePath : List (String × Int) → String → Int → List (String × Int)
  | [], _, _ => []
  | p :: rest, q, v => (if p.1 = q then (q, v) else p) :: replacePath rest q v

/-- Effect of `INSERT INTO transcript_offsets ... ON CONFLICT
(transcript_path) DO UPDATE SET last_offset = excluded.last_offset`:
last-write-wins upsert. -/
def upsertList (l : List (String × Int)) (q : String) (v : Int) : List (String × Int) :=
  if hasPath l q then replacePath l q v else l ++ [(q, v)]

/-- The offset upsert lifted to the database state. -/
def upsertOffset (st : DBState) (path : String) (off : Int) : DBState :=
  { st with offsets := upsertList st.offsets path off }

/-- First offset row keyed `path`, as the SELECT in `GetOffset` sees it. -/
def lookupOffset : List (String × Int) → String → Option Int
  | [], _ => none
  | p :: rest, q => if p.1 = q then some p.2 else lookupOffset rest q

/-- Embedding of `Store.GetOffset`: `sql.ErrNoRows` is mapped to `(0, nil)`. -/
def GetOffset (st : DBState) (path : String) : Except String Int :=
  match lookupOffset st.offsets path with
  | none => Except.ok 0
  | some v => Except.ok v

/-- The message-insertion loop of `SaveHarvestedMessages`, run against the
transaction's pending state; `f` is the failure oracle (`f i = true` means
the `i`-th statement of the call errors) and `i` the index of the next
statement. -/
def insertAll (f : Nat → Bool) : Nat → DBState → List Message → Except String DBState
  | _, pending, [] => Except.ok pending
  | i, pending, m :: rest =>
      if f i then Except.error ("insert message " ++ m.uuid)
      else insertAll f (i + 1) (insertMessage pending m) rest

/-- Embedding of `Store.SaveHarvestedMessages`: begin a transaction
(statement 0), prepare the message INSERT (statement 1), run one INSERT
per message (statements `2 .. 2+n-1`) and the offset upsert (statement
`2+n`) against the transaction's pending state, then commit (statement
`3+n`).  `defer tx.Rollback()` means every error path leaves the durable
state untouched; only a successful commit publishes the pending state.
Returns the Go error result paired with the durable state after the call. -/
def SaveHarvestedMessages (f : Nat → Bool) (st : DBState) (msgs : List Message)
    (path : String) (newOffset : Int) : Except String Unit × DBState :=
  if f 0 then (Except.error "begin tx", st)
  else if f 1 then (Except.error "prepare", st)
  else
    match insertAll f 2 st msgs with
    | Except.error e => (Except.error e, st)
    | Except.ok pending =>
        if f (2 + msgs.length) then (Except.error "update offset", st)
        else
          let pending2 := upsertOffset pending path newOffset
          if f (3 + msgs.length) then (Except.error "commit", st)
          else (Except.ok (), pending2)

/-- Failure oracle of a run in which the database layer never fails. -/
def noFail : Nat → Bool := fun _ => false

/-- Embedding of `harvestMessages` (main.go): look up the stored offset,
harvest from it, and commit — unless the harvest returned zero messages,
in which case the commit path is skipped entirely and the store is left
untouched. -/
def harvestMessages (decode : List Nat → Option TranscriptLine) (parse : String → Option Int)
    (now : Int) (f : Nat → Bool) (st : DBState) (sessionID transcriptPath : String)
    (file : Option (List Nat)) : Except String Unit × DBState :=
  match GetOffset st transcriptPath with
  | Except.error e => (Except.error e, st)
  | Except.ok off =>
      match Harvest decode parse now sessionID file off with
      | Except.error e => (Except.error e, st)
      | Except.ok res =>
          if res.messages.length = 0 then (Except.ok (), st)
          else SaveHarvestedMessages f st res.messages transcriptPath res.newOffset

/-! ## Concrete instances used by witnesses and counterexamples -/

/-- Byte list of an ASCII string, as the transcript files' bytes. -/
def asciiBytes (s : String) : List Nat := s.toList.map Char.toNat

/-- Decoder of a run in which no line is valid JSON. -/
def ex0Decode : List Nat → Option TranscriptLine := fun _ => none

/-- Timestamp parser that rejects every string. -/
def ex0Parse : String → Option Int := fun _ => none

/-- Bytes of the two-line file "hi\n". -/
def ex0Bytes : List Nat := [104, 105, 10]

/-- Empty database state. -/
def exEmptyDB : DBState := ⟨[], []⟩

/-- Bytes of a file holding one malformed line "x\n". -/
def exJunkFile : Option (List Nat) := some [120, 10]

/-- A transcript line whose JSON text is
`{"type":"summary","uuid":"u1","message":{"role":"user","content":"hi"}}`. -/
def exSummaryLine : String :=
  "\x7b\"type\":\"summary\",\"uuid\":\"u1\",\"message\":\x7b\"role\":\"user\",\"content\":\"hi\"\x7d\x7d"

/-- The `transcriptLine` value `encoding/json` produces for
`exSummaryLine`: kind "summary", but a payload with role "user". -/
def exSummaryTL : TranscriptLine :=
  { type := "summary", uuid := "u1", parent := ""
    message := some { role := "user", content := RawContent.jstr "\"hi\"" "hi", model := "" }
    timestamp := "" }

/-- Decoder that decodes exactly `exSummaryLine` (to `exSummaryTL`). -/
def exSummaryDecode : List Nat → Option TranscriptLine :=
  fun t => if t = asciiBytes exSummaryLine then some exSummaryTL else none

/-- File consisting of `exSummaryLine` terminated by a newline. -/
def exSummaryBytes : List Nat := asciiBytes exSummaryLine ++ [10]

/-- The message harvested from `exSummaryBytes` at clock instant 0. -/
def exSummaryMsg : Message :=
  { sessionID := "s", uuid := "u1", parentUUID := "", role := "user"
    content := "hi", rawContent := "\"hi\"", model := "", timestamp := 0 }

/-- A previously persisted row for uuid "u1". -/
def exOldRow : MsgRow :=
  { sessionID := "s", uuid := some "u1", parentUUID := none, role := "user"
    content := some "old", rawContent := none, model := none, timestamp := 5 }

/-- Store already holding `exOldRow`. -/
def exConflictDB : DBState := ⟨[exOldRow], []⟩

/-- A re-harvested turn with the same uuid "u1" but different fields. -/
def exDupMsg : Message :=
  { sessionID := "s2", uuid := "u1", parentUUID := "", role := "assistant"
    content := "new", rawContent := "x", model := "m", timestamp := 9 }

/-- A turn with an empty uuid. -/
def exNullMsg : Message :=
  { sessionID := "s", uuid := "", parentUUID := "", role := "user"
    content := "c", rawContent := "", model := "", timestamp := 1 }

/-! ## Helper lemmas -/

/-- The part-collecting fold of `extractText` computes the filtered text
list of the spec's description. -/
lemma extractText_foldl_parts (blocks : List (Option BlockObj)) : ∀ acc : List String,
    blocks.foldl
      (fun acc ob =>
        match ob with
        | none => acc
        | some obj =>
            if obj.type = "text" ∧ obj.text ≠ "" then acc ++ [obj.text] else acc)
      acc
    = acc ++ blocks.filterMap (fun ob =>
        ob.bind (fun b => if b.type = "text" ∧ b.text ≠ "" then some b.text else none)) := by
  induction blocks with
  | nil => intro acc; simp
  | cons ob rest ih =>
      intro acc
      cases ob with
      | none => simp [ih]
      | some obj =>
          by_cases hb : obj.type = "text" ∧ obj.text ≠ ""
          · simp [hb, ih]
          · simp [hb, ih]

/-- Seeking to a returned (natural) offset starts reading at that byte. -/
lemma seekStart_natCast (k : Nat) : seekStart (k : Int) = k := by
  unfold seekStart
  split
  · omega
  · omega

/-- Shape of a successful harvest: the messages are the filter-mapped scan
tokens and the new offset is the end of what the cursor passed. -/
lemma Harvest_ok_elim (decode : List Nat → Option TranscriptLine) (parse : String → Option Int)
    (now : Int) (sid : String) (bytes : List Nat) (off : Int) (res : HarvestResult)
    (h : Harvest decode parse now sid (some bytes) off = Except.ok res) :
    res.messages = (scanTokens bytes off).filterMap (harvestToken decode parse now sid) ∧
    res.newOffset = ((seekStart off + (bytes.drop (seekStart off)).length : Nat) : Int) := by
  simp only [Harvest] at h
  split at h
  · exact Except.noConfusion h
  · injection h with h'
    subst h'
    exact ⟨rfl, rfl⟩

/-- Harvesting a region with no remaining bytes yields no messages and
leaves the cursor at the seek target. -/
lemma Harvest_drop_nil (decode : List Nat → Option TranscriptLine) (parse : String → Option Int)
    (now : Int) (sid : String) (bytes : List Nat) (off : Int)
    (h : bytes.drop (seekStart off) = []) :
    Harvest decode parse now sid (some bytes) off =
      Except.ok { messages := [], newOffset := ((seekStart off : Nat) : Int) } := by
  simp only [Harvest]
  rw [h]
  simp [splitSegs, splitSegsAux, scanTokens, h]

/-! ## C7 -/

/-- C7: `extractText` satisfies its full contract: a decoded JSON string is
returned verbatim; a decoded block array yields the non-empty texts of the
"text"-typed blocks joined by single newlines in original order with all
other blocks ignored; anything else is returned as the opaque raw content;
missing/empty content yields the empty string.  The function is total, so
it never throws. -/
theorem extractText_contract :
    extractText RawContent.absent = "" ∧
    (∀ raw s, extractText (RawContent.jstr raw s) = s) ∧
    (∀ raw blocks, extractText (RawContent.jarr raw blocks) = textBlocksJoined blocks) ∧
    (∀ raw, extractText (RawContent.other raw) = raw) := by
  refine ⟨rfl, fun _ _ => rfl, fun raw blocks => ?_, fun _ => rfl⟩
  show String.intercalate "\n" _ = textBlocksJoined blocks
  rw [textBlocksJoined, extractText_foldl_parts blocks []]
  rfl

/-! ## C2 -/

/-- C2: Harvest is idempotent through its returned offset: a successful
harvest followed by another harvest of the same (unchanged) file starting
at the returned offset succeeds and returns zero turns, whatever instant
the second call's clock reads. -/
theorem harvest_idempotent (decode : List Nat → Option TranscriptLine)
    (parse : String → Option Int) (now now2 : Int) (sid : String) (bytes : List Nat)
    (off : Int) (res : HarvestResult)
    (h : Harvest decode parse now sid (some bytes) off = Except.ok res) :
    Harvest decode parse now2 sid (some bytes) res.newOffset =
      Except.ok { messages := [], newOffset := res.newOffset } := by
  obtain ⟨-, hoff⟩ := Harvest_ok_elim decode parse now sid bytes off res h
  have hlen : bytes.length ≤ seekStart off + (bytes.drop (seekStart off)).length := by
    have := List.length_drop (seekStart off) bytes
    omega
  have hdrop : bytes.drop (seekStart res.newOffset) = [] := by
    rw [hoff, seekStart_natCast]
    exact List.drop_eq_nil_of_le hlen
  rw [Harvest_drop_nil decode parse now2 sid bytes res.newOffset hdrop, hoff, seekStart_natCast]

/-- Witness for C2 on the concrete file "hi\n": the first harvest returns
offset 3, the second from offset 3 returns no turns. -/
theorem harvest_idempotent_witness :
    Harvest ex0Decode ex0Parse 0 "s" (some ex0Bytes) 0 =
      Except.ok { messages := [], newOffset := 3 } ∧
    Harvest ex0Decode ex0Parse 7 "s" (some ex0Bytes) 3 =
      Except.ok { messages := [], newOffset := 3 } :=
  ⟨rfl, harvest_idempotent ex0Decode ex0Parse 0 7 "s" ex0Bytes 0 ⟨[], 3⟩ rfl⟩

/-! ## C6 -/

/-- C6: Harvest fails exactly when the file cannot be opened or some line
exceeds the scanner's maximum deliverable line size — a raw segment of at
least `maxLineSize` bytes, the exact `bufio.ErrTooLong` boundary (the
largest line the scanner can deliver is `maxLineSize - 1` content bytes
plus its newline); unparseable lines, payload-less records, off-role
records, empty lines and bad timestamps (all folded into the universally
quantified `decode`/`parse` collaborators) never cause an error, and the
error constructor carries no partial turn list. -/
theorem harvest_error_characterization (decode : List Nat → Option TranscriptLine)
    (parse : String → Option Int) (now : Int) (sid : String) (file : Option (List Nat))
    (off : Int) :
    (∃ e, Harvest decode parse now sid file off = Except.error e) ↔
      (file = none ∨ ∃ bytes, file = some bytes ∧
        (splitSegs (bytes.drop (seekStart off))).any
          (fun s => decide (maxLineSize ≤ s.length)) = true) := by
  cases file with
  | none =>
      constructor
      · intro _; exact Or.inl rfl
      · intro _; exact ⟨"open transcript", rfl⟩
  | some bytes =>
      by_cases hb : (splitSegs (bytes.drop (seekStart off))).any
          (fun s => decide (maxLineSize ≤ s.length)) = true
      · constructor
        · intro _; exact Or.inr ⟨bytes, rfl, hb⟩
        · intro _; exact ⟨"scan transcript", by simp [Harvest, hb]⟩
      · constructor
        · rintro ⟨e, he⟩
          simp [Harvest, hb] at he
        · rintro (hnone | ⟨bytes', hbeq, hany⟩)
          · exact absurd hnone (by simp)
          · injection hbeq with hbeq'
            subst hbeq'
            exact absurd hany hb

/-! ## Store-layer helper lemmas -/

/-- The insertion loop either applies every insert to the pending state in
order, or stops at the oracle's failing statement with an error. -/
lemma insertAll_cases (f : Nat → Bool) : ∀ (msgs : List Message) (i : Nat) (pending : DBState),
    insertAll f i pending msgs = Except.ok (msgs.foldl insertMessage pending) ∨
    ∃ e, insertAll f i pending msgs = Except.error e := by
  intro msgs
  induction msgs with
  | nil => intro i pending; left; rfl
  | cons m rest ih =>
      intro i pending
      cases hf : f i with
      | true => right; exact ⟨"insert message " ++ m.uuid, by simp [insertAll, hf]⟩
      | false =>
          simp only [insertAll, hf, Bool.false_eq_true, if_false, List.foldl_cons]
          exact ih (i + 1) (insertMessage pending m)

/-- With a never-failing oracle the insertion loop is the plain fold. -/
lemma insertAll_noFail : ∀ (msgs : List Message) (i : Nat) (pending : DBState),
    insertAll noFail i pending msgs = Except.ok (msgs.foldl insertMessage pending) := by
  intro msgs
  induction msgs with
  | nil => intro i pending; rfl
  | cons m rest ih =>
      intro i pending
      simp only [insertAll, noFail, Bool.false_eq_true, if_false, List.foldl_cons]
      exact ih (i + 1) (insertMessage pending m)

/-- Dichotomy of `SaveHarvestedMessages` runs: a fully committed state or
an error with the durable state untouched. -/
lemma save_cases (f : Nat → Bool) (st : DBState) (msgs : List Message) (path : String)
    (off : Int) :
    SaveHarvestedMessages f st msgs path off =
      (Except.ok (), upsertOffset (msgs.foldl insertMessage st) path off) ∨
    ∃ e, SaveHarvestedMessages f st msgs path off = (Except.error e, st) := by
  unfold SaveHarvestedMessages
  cases h0 : f 0 with
  | true => right; exact ⟨"begin tx", by simp⟩
  | false =>
      cases h1 : f 1 with
      | true => right; exact ⟨"prepare", by simp⟩
      | false =>
          simp only [Bool.false_eq_true, if_false]
          rcases insertAll_cases f msgs 2 st with hins | ⟨e, hins⟩
          · rw [hins]
            cases h2 : f (2 + msgs.length) with
            | true => right; exact ⟨"update offset", by simp⟩
            | false =>
                cases h3 : f (3 + msgs.length) with
                | true => right; exact ⟨"commit", by simp⟩
                | false => left; simp
          · rw [hins]
            right; exact ⟨e, rfl⟩

/-- With a never-failing oracle a save call commits everything. -/
lemma save_noFail (st : DBState) (msgs : List Message) (path : String) (off : Int) :
    SaveHarvestedMessages noFail st msgs path off =
      (Except.ok (), upsertOffset (msgs.foldl insertMessage st) path off) := by
  unfold SaveHarvestedMessages
  rw [insertAll_noFail]
  simp [noFail]

/-- A save call that reported success left the fully committed state. -/
lemma save_ok_state (f : Nat → Bool) (st : DBState) (msgs : List Message) (path : String)
    (off : Int) (st' : DBState)
    (h : SaveHarvestedMessages f st msgs path off = (Except.ok (), st')) :
    st' = upsertOffset (msgs.foldl insertMessage st) path off := by
  rcases save_cases f st msgs path off with hc | ⟨e, hc⟩
  · rw [h] at hc
    exact congrArg Prod.snd hc
  · rw [h] at hc
    exact absurd (congrArg Prod.fst hc) (by simp)

/-- Looking up the path just upserted finds the new offset. -/
lemma lookupOffset_upsertList (l : List (String × Int)) (q : String) (v : Int) :
    lookupOffset (upsertList l q v) q = some v := by
  induction l with
  | nil => simp [upsertList, hasPath, lookupOffset]
  | cons p rest ih =>
      by_cases hp : p.1 = q
      · simp [upsertList, hasPath, hp, replacePath, lookupOffset]
      · by_cases hr : hasPath rest q
        · have ih' : lookupOffset (replacePath rest q v) q = some v := by
            simpa [upsertList, hr] using ih
          simp [upsertList, hasPath, hp, hr, replacePath, lookupOffset, ih']
        · have ih' : lookupOffset (rest ++ [(q, v)]) q = some v := by
            simpa [upsertList, hr] using ih
          simp [upsertList, hasPath, hp, hr, lookupOffset, ih']

/-- `GetOffset` sees the offset just upserted for its path. -/
lemma GetOffset_upsertOffset (st : DBState) (path : String) (v : Int) :
    GetOffset (upsertOffset st path v) path = Except.ok v := by
  unfold GetOffset upsertOffset
  simp only [lookupOffset_upsertList]

/-! ## C1 -/

/-- C1: `SaveHarvestedMessages` is atomic: for every failure oracle,
database state, turn list and offset, the call either commits every turn
insertion together with the offset upsert, or returns an error with the
messages table and the offset record exactly in their pre-call state —
never a partial write. -/
theorem save_atomicity (f : Nat → Bool) (st : DBState) (msgs : List Message) (path : String)
    (off : Int) :
    SaveHarvestedMessages f st msgs path off =
      (Except.ok (), upsertOffset (msgs.foldl insertMessage st) path off) ∨
    ∃ e, SaveHarvestedMessages f st msgs path off = (Except.error e, st) :=
  save_cases f st msgs path off

/-! ## C8 -/

/-- C8: the offset store contract: a path with no offset row reads as 0
without error, and after any successful save (however many preceded it,
and even when the new value is smaller than the stored one) `GetOffset`
returns exactly the offset passed to that most recent call. -/
theorem offset_store_contract :
    (∀ (st : DBState) (path : String), lookupOffset st.offsets path = none →
        GetOffset st path = Except.ok 0) ∧
    (∀ (f : Nat → Bool) (st : DBState) (msgs : List Message) (path : String) (off : Int)
        (st' : DBState),
        SaveHarvestedMessages f st msgs path off = (Except.ok (), st') →
        GetOffset st' path = Except.ok off) := by
  constructor
  · intro st path h
    unfold GetOffset
    rw [h]
  · intro f st msgs path off st' h
    rw [save_ok_state f st msgs path off st' h]
    exact GetOffset_upsertOffset (msgs.foldl insertMessage st) path off

/-- Witness for C8: a never-recorded path reads as 0; committing offset
100 and then the smaller offset 7 for the same path makes `GetOffset`
return 7 (last-write-wins, no max-with-previous). -/
theorem offset_store_contract_witness :
    GetOffset exEmptyDB "a.jsonl" = Except.ok 0 ∧
    GetOffset ((SaveHarvestedMessages noFail
        ((SaveHarvestedMessages noFail exEmptyDB [] "a.jsonl" 100).2)
        [] "a.jsonl" 7).2) "a.jsonl" = Except.ok 7 :=
  ⟨offset_store_contract.1 exEmptyDB "a.jsonl" rfl,
   offset_store_contract.2 noFail ((SaveHarvestedMessages noFail exEmptyDB [] "a.jsonl" 100).2)
     [] "a.jsonl" 7 _ rfl⟩

/-! ## C3 -/

/-- Rows of a message table carrying a given (non-NULL) uuid. -/
def rowsWithUuid (rows : List MsgRow) (u : String) : List MsgRow :=
  rows.filter (fun r => decide (r.uuid = some u))

/-- A uuid is found by `existsUuid` exactly when it filters a non-empty
row list. -/
lemma rowsWithUuid_ne_nil (rows : List MsgRow) (u : String) :
    rowsWithUuid rows u ≠ [] ↔ existsUuid rows u = true := by
  induction rows with
  | nil => simp [rowsWithUuid, existsUuid]
  | cons r rest ih =>
      by_cases h : r.uuid = some u
      · simp [rowsWithUuid, existsUuid, h, List.filter_cons]
      · rw [show rowsWithUuid (r :: rest) u = rowsWithUuid rest u from by
            simp [rowsWithUuid, List.filter_cons, h],
          show existsUuid (r :: rest) u = existsUuid rest u from by
            simp [existsUuid, h]]
        exact ih

/-- Inserting any message leaves the rows of an already-present uuid
untouched: a conflicting insert is dropped and a non-conflicting one
appends a row with a different (or NULL) uuid. -/
lemma rowsWithUuid_insert (st : DBState) (m : Message) (u : String)
    (h : rowsWithUuid st.messages u ≠ []) :
    rowsWithUuid (insertMessage st m).messages u = rowsWithUuid st.messages u := by
  unfold insertMessage
  cases hru : (toRow m).uuid with
  | none =>
      simp only [hru]
      simp [rowsWithUuid, List.filter_append, hru]
  | some u' =>
      simp only [hru]
      by_cases he : existsUuid st.messages u' = true
      · simp [he]
      · by_cases huu : u' = u
        · exact absurd ((rowsWithUuid_ne_nil st.messages u).mp h) (huu ▸ he)
        · simp [he, rowsWithUuid, List.filter_append, hru, huu]

/-- The whole insertion fold preserves the unique row of a uuid that is
already present. -/
lemma rowsWithUuid_foldl (msgs : List Message) : ∀ (st : DBState) (u : String) (r0 : MsgRow),
    rowsWithUuid st.messages u = [r0] →
    rowsWithUuid ((msgs.foldl insertMessage st).messages) u = [r0] := by
  induction msgs with
  | nil => intro st u r0 h; simpa using h
  | cons m rest ih =>
      intro st u r0 h
      have h1 : rowsWithUuid ((insertMessage st m).messages) u = [r0] := by
        rw [rowsWithUuid_insert st m u (by rw [h]; simp)]
        exact h
      simpa only [List.foldl_cons] using ih (insertMessage st m) u r0 h1

/-- C3: turn persistence is a no-op on identifier conflict, never an
update: when the message table holds exactly one row for a non-empty uuid,
a save call re-committing that identifier any number of times (alongside
arbitrary other turns) succeeds without error and leaves exactly that one
row, with its originally stored field values, for that identifier. -/
theorem turn_conflict_noop (st : DBState) (u : String) (r0 : MsgRow) (msgs : List Message)
    (path : String) (off : Int) (_hu : u ≠ "")
    (hrow : rowsWithUuid st.messages u = [r0]) :
    (SaveHarvestedMessages noFail st msgs path off).1 = Except.ok () ∧
    rowsWithUuid ((SaveHarvestedMessages noFail st msgs path off).2).messages u = [r0] := by
  rw [save_noFail]
  exact ⟨rfl, rowsWithUuid_foldl msgs st u r0 hrow⟩

/-- Witness for C3: a store holding one row for uuid "u1" is unchanged at
"u1" after a save that re-commits "u1" twice with different field values,
and the call reports success. -/
theorem turn_conflict_noop_witness :
    (SaveHarvestedMessages noFail exConflictDB [exDupMsg, exDupMsg] "p" 50).1 = Except.ok () ∧
    rowsWithUuid ((SaveHarvestedMessages noFail exConflictDB
        [exDupMsg, exDupMsg] "p" 50).2).messages "u1" = [exOldRow] :=
  turn_conflict_noop exConflictDB "u1" exOldRow [exDupMsg, exDupMsg] "p" 50
    (by decide) (by decide)

/-! ## C10 -/

/-- Inserting a message whose row uuid is NULL always appends. -/
lemma insertMessage_nullUuid (st : DBState) (m : Message) (h : (toRow m).uuid = none) :
    insertMessage st m = { st with messages := st.messages ++ [toRow m] } := by
  simp [insertMessage, h]

/-- C10: duplicate suppression does not extend to empty identifiers: an
empty-string uuid is stored as NULL, and committing the same empty-uuid
turn in two successive (successful) save calls appends two separate rows,
because neither the UNIQUE constraint nor the conflict-ignore clause
applies to NULL values. -/
theorem empty_uuid_not_deduplicated (st : DBState) (m : Message) (p1 p2 : String)
    (o1 o2 : Int) (h : m.uuid = "") :
    (toRow m).uuid = none ∧
    ((SaveHarvestedMessages noFail
        ((SaveHarvestedMessages noFail st [m] p1 o1).2) [m] p2 o2).2).messages =
      st.messages ++ [toRow m] ++ [toRow m] := by
  have hn : (toRow m).uuid = none := by simp [toRow, nullStr, h]
  refine ⟨hn, ?_⟩
  rw [save_noFail, save_noFail]
  simp only [List.foldl_cons, List.foldl_nil]
  rw [insertMessage_nullUuid st m hn]
  rw [insertMessage_nullUuid _ m hn]
  simp [upsertOffset]

/-- Witness for C10: committing a turn with uuid "" twice into an empty
store leaves two rows. -/
theorem empty_uuid_not_deduplicated_witness :
    (toRow exNullMsg).uuid = none ∧
    ((SaveHarvestedMessages noFail
        ((SaveHarvestedMessages noFail exEmptyDB [exNullMsg] "p" 1).2)
        [exNullMsg] "p" 2).2).messages =
      exEmptyDB.messages ++ [toRow exNullMsg] ++ [toRow exNullMsg] :=
  empty_uuid_not_deduplicated exEmptyDB exNullMsg "p" "p" 1 2 rfl

/-! ## C9 -/

/-- C9: timestamp assignment in a harvest batch: every harvested message
comes from a scanned token whose decoded record either carries a
parseable timestamp — in which case the message receives exactly the
parsed instant — or a missing/unparseable one — in which case the message
receives `now`, the single instant captured once at harvest start and
shared by the whole batch (the same `now` for every such message). -/
theorem harvest_timestamp_assignment (decode : List Nat → Option TranscriptLine)
    (parse : String → Option Int) (now : Int) (sid : String) (bytes : List Nat) (off : Int)
    (res : HarvestResult) (m : Message)
    (h : Harvest decode parse now sid (some bytes) off = Except.ok res)
    (hm : m ∈ res.messages) :
    ∃ tl, (∃ t, t ∈ scanTokens bytes off ∧ decode t = some tl) ∧
      ((∃ u, tl.timestamp ≠ "" ∧ parse tl.timestamp = some u ∧ m.timestamp = u) ∨
       ((tl.timestamp = "" ∨ parse tl.timestamp = none) ∧ m.timestamp = now)) := by
  obtain ⟨hmsgs, -⟩ := Harvest_ok_elim decode parse now sid bytes off res h
  rw [hmsgs] at hm
  obtain ⟨t, ht, hsome⟩ := List.mem_filterMap.mp hm
  simp only [harvestToken] at hsome
  by_cases hlen : t.length = 0
  · rw [if_pos hlen] at hsome
    exact Option.noConfusion hsome
  · rw [if_neg hlen] at hsome
    cases hd : decode t with
    | none => rw [hd] at hsome; exact Option.noConfusion hsome
    | some tl =>
        rw [hd] at hsome
        dsimp only [] at hsome
        cases hmp : tl.message with
        | none => rw [hmp] at hsome; exact Option.noConfusion hsome
        | some mp =>
            rw [hmp] at hsome
            dsimp only [] at hsome
            by_cases hrole : mp.role = "user" ∨ mp.role = "assistant"
            · rw [if_pos hrole] at hsome
              injection hsome with hsome
              refine ⟨tl, ⟨t, ht, hd⟩, ?_⟩
              have hts : m.timestamp = parseTimestamp parse tl.timestamp now := by
                rw [← hsome]
              unfold parseTimestamp at hts
              by_cases hraw : tl.timestamp = ""
              · rw [if_pos hraw] at hts
                exact Or.inr ⟨Or.inl hraw, hts⟩
              · rw [if_neg hraw] at hts
                cases hp : parse tl.timestamp with
                | none => rw [hp] at hts; exact Or.inr ⟨Or.inr rfl, hts⟩
                | some u => rw [hp] at hts; exact Or.inl ⟨u, hraw, rfl, hts⟩
            · rw [if_neg hrole] at hsome
              exact Option.noConfusion hsome

/-- Witness for C9: the message harvested from `exSummaryBytes` (whose
record has no timestamp field) carries the batch's shared `now = 0`. -/
theorem harvest_timestamp_assignment_witness :
    ∃ tl, (∃ t, t ∈ scanTokens exSummaryBytes 0 ∧ exSummaryDecode t = some tl) ∧
      ((∃ u, tl.timestamp ≠ "" ∧ ex0Parse tl.timestamp = some u ∧ exSummaryMsg.timestamp = u) ∨
       ((tl.timestamp = "" ∨ ex0Parse tl.timestamp = none) ∧ exSummaryMsg.timestamp = 0)) :=
  harvest_timestamp_assignment exSummaryDecode ex0Parse 0 "s" exSummaryBytes 0
    ⟨[exSummaryMsg], (((asciiBytes exSummaryLine).length + 1 : Nat) : Int)⟩ exSummaryMsg
    rfl (by decide)

/-! ## C5 (corrected) -/

/-- C5 counterexample: the harvester does not consult the record kind.  A
line whose decoded kind is "summary" (not "message") but whose payload has
role "user" is retained and converted to a turn, contradicting the claim
that only records of kind "message" are retained. -/
theorem kind_filter_counterexample :
    exSummaryDecode (asciiBytes exSummaryLine) = some exSummaryTL ∧
    exSummaryTL.type = "summary" ∧
    exSummaryTL.type ≠ "message" ∧
    Harvest exSummaryDecode ex0Parse 0 "s" (some exSummaryBytes) 0 =
      Except.ok { messages := [exSummaryMsg]
                  newOffset := (((asciiBytes exSummaryLine).length + 1 : Nat) : Int) } ∧
    exSummaryMsg.role = "user" :=
  ⟨rfl, rfl, by decide, rfl, rfl⟩

/-- C5 amended: for every successfully parsed line, Harvest retains the
record if and only if its payload is present and the payload role is
"user" or "assistant" — the record kind is not consulted; every other
record is dropped silently, the harvested messages being exactly the
retained conversions of the scanned tokens. -/
theorem harvest_retention_filter (decode : List Nat → Option TranscriptLine)
    (parse : String → Option Int) (now : Int) (sid : String) (bytes : List Nat) (off : Int)
    (res : HarvestResult) (t : List Nat) (tl : TranscriptLine)
    (h : Harvest decode parse now sid (some bytes) off = Except.ok res)
    (hd : decode t = some tl) (hne : t.length ≠ 0) :
    res.messages = (scanTokens bytes off).filterMap (harvestToken decode parse now sid) ∧
    ((harvestToken decode parse now sid t).isSome ↔
      ∃ mp, tl.message = some mp ∧ (mp.role = "user" ∨ mp.role = "assistant")) := by
  refine ⟨(Harvest_ok_elim decode parse now sid bytes off res h).1, ?_⟩
  simp only [harvestToken, if_neg hne, hd]
  cases hmp : tl.message with
  | none => simp
  | some mp =>
      by_cases hrole : mp.role = "user" ∨ mp.role = "assistant"
      · simp [hrole]
      · simp [hrole]

/-- Witness for the amended C5 at the concrete summary-kind line: the line
is retained because its payload role is "user". -/
theorem harvest_retention_filter_witness :
    [exSummaryMsg] = (scanTokens exSummaryBytes 0).filterMap
        (harvestToken exSummaryDecode ex0Parse 0 "s") ∧
    ((harvestToken exSummaryDecode ex0Parse 0 "s" (asciiBytes exSummaryLine)).isSome ↔
      ∃ mp, exSummaryTL.message = some mp ∧ (mp.role = "user" ∨ mp.role = "assistant")) :=
  harvest_retention_filter exSummaryDecode ex0Parse 0 "s" exSummaryBytes 0
    ⟨[exSummaryMsg], (((asciiBytes exSummaryLine).length + 1 : Nat) : Int)⟩
    (asciiBytes exSummaryLine) exSummaryTL rfl rfl (by decide)

/-! ## C4 (corrected) -/

/-- C4 counterexample: with stored offset 0 and a file "x\n" whose only
line is malformed, Harvest returns zero turns and new offset 2; the
orchestrator skips the commit and the stored offset stays 0, whereas an
empty-sequence `SaveHarvestedMessages` call would have committed offset 2
— the two stored offsets differ, refuting the claimed equivalence. -/
theorem skip_commit_counterexample :
    Harvest ex0Decode ex0Parse 0 "s" exJunkFile 0 = Except.ok { messages := [], newOffset := 2 } ∧
    harvestMessages ex0Decode ex0Parse 0 noFail exEmptyDB "s" "p" exJunkFile =
      (Except.ok (), exEmptyDB) ∧
    GetOffset ((harvestMessages ex0Decode ex0Parse 0 noFail exEmptyDB "s" "p" exJunkFile).2) "p" =
      Except.ok 0 ∧
    GetOffset ((SaveHarvestedMessages noFail exEmptyDB [] "p" 2).2) "p" = Except.ok 2 ∧
    (0 : Int) ≠ 2 :=
  ⟨rfl, rfl, rfl, rfl, by decide⟩

/-- C4 amended: when Harvest returns zero turns the orchestrator skips the
commit path and leaves the whole store state (in particular the stored
offset) unchanged, whereas an empty-sequence `SaveHarvestedMessages` call
would have committed the returned offset; the skip is therefore
semantically equivalent to the empty-sequence call only when the returned
offset equals the stored one. -/
theorem harvest_step_skip_semantics (decode : List Nat → Option TranscriptLine)
    (parse : String → Option Int) (now : Int) (f : Nat → Bool) (st : DBState)
    (sid path : String) (file : Option (List Nat)) (off : Int) (res : HarvestResult)
    (hoff : GetOffset st path = Except.ok off)
    (hh : Harvest decode parse now sid file off = Except.ok res)
    (hempty : res.messages = []) :
    harvestMessages decode parse now f st sid path file = (Except.ok (), st) ∧
    GetOffset ((SaveHarvestedMessages noFail st [] path res.newOffset).2) path =
      Except.ok res.newOffset := by
  constructor
  · simp [harvestMessages, hoff, hh, hempty]
  · rw [save_noFail]
    exact GetOffset_upsertOffset st path res.newOffset

/-- Witness for the amended C4 on the malformed-line file: the orchestrator
leaves the store untouched while the empty-sequence call would store 2. -/
theorem harvest_step_skip_semantics_witness :
    harvestMessages ex0Decode ex0Parse 0 noFail exEmptyDB "s" "p" exJunkFile =
      (Except.ok (), exEmptyDB) ∧
    GetOffset ((SaveHarvestedMessages noFail exEmptyDB [] "p" 2).2) "p" = Except.ok 2 :=
  harvest_step_skip_semantics ex0Decode ex0Parse 0 noFail exEmptyDB "s" "p" exJunkFile 0
    ⟨[], 2⟩ rfl rfl rfl

end Clog
